import Mathlib

/-!
Verification development for the expression-and-statement language front end
(lexer, precedence-climbing parser, tree-walking evaluator, stack-machine
code generator) of the `rust-tmp` repository.

The definitions below are a shallow embedding of the Rust sources:
  src/parser/src/token.rs      (token and span model)
  src/parser/src/lexer.rs      (lexer)
  src/parser/src/ast.rs        (AST, operator-precedence table)
  src/parser/src/parser.rs     (statement / expression parser)
  src/parser/src/evaluator.rs  (tree-walking interpreter)
  src/parser/src/codegen.rs    (assembly code generator)

Machine integers (Rust `i32`) are embedded as `Int` with explicit wrapping
through `wrap32` where overflow matters.  Rust panics (`unwrap`,
`unreachable!`, `unimplemented!`, division by zero) are embedded as `none` of
an `Option` layer.  Loops are given explicit fuel; the top-level entry points
supply enough fuel, and theorems that quantify over programs are stated for
every fuel value.

The source snapshot mixes revisions: `parser.rs`, `evaluator.rs` and
`codegen.rs` refer to AST and token constructors (`BinaryOp::Assign`,
`BinaryOp::Eq`, `BinaryOp::Neq`, `Expression::Var`, `Statement`, `Program`,
`TokenKind::{LeftBlock, RightBlock, If, While, For}`) that are absent from the
snapshot's `ast.rs` / `token.rs`.  Definitions for those missing pieces are
modelled from the specification and are marked `Modelled from the spec:` in
their doc comments.  Everything else is translated directly from the Rust
sources named above.
-/

namespace ExprLang

/-- Byte-offset span into the source text, from `token.rs` (`Span { start, end }`).
The `end` field is called `stop` here because `end` is a Lean keyword. -/
structure Span where
  start : Nat
  stop : Nat
deriving DecidableEq, Repr

/-- Modelled from the spec: token kinds.  The variants `Plus` through
`Semicolon` are the ones declared in the snapshot's `token.rs`; the variants
`LeftBlock`, `RightBlock`, `If`, `While`, `For` are produced or consumed by
`lexer.rs` / `parser.rs` but are missing from the snapshot's `token.rs`, and
`Assign` (the spec's `=` token) and `Neq` (`!=`) appear only in the spec's
token list.  Note that the snapshot's lexer maps the character `=` to `Eq`. -/
inductive TokenKind where
  | Plus
  | Minus
  | Mul
  | Div
  | Pow
  | Eq
  | Gt
  | Lt
  | GtEq
  | LtEq
  | Num (n : Int)
  | Ident (name : String)
  | LeftParen
  | RightParen
  | Semicolon
  | LeftBlock
  | RightBlock
  | If
  | While
  | For
  | Assign
  | Neq
deriving DecidableEq, Repr

/-- Spanned token, from `token.rs` (`Token { span, kind }`). -/
structure Token where
  span : Span
  kind : TokenKind
deriving DecidableEq, Repr

/-- Lexer errors, from `lexer.rs` (`LexicalError`). -/
inductive LexicalError where
  | InvalidToken (s : String) (span : Span)
  | Eof
deriving DecidableEq, Repr

/-- Value of a (nonempty) list of ASCII decimal digits, most significant first;
this is the value computed by `str::parse::<i32>` on the digit substring taken
by `Lexer::next_number`. -/
def digitsVal (cs : List Char) : Nat :=
  cs.foldl (fun a c => 10 * a + (c.toNat - 48)) 0

/-- Largest `i32` value; `str::parse::<i32>` succeeds on a digit-only string
exactly when its value is at most this bound. -/
def I32_MAX : Nat := 2147483647

/-- Total UTF-8 byte length of a list of characters; the lexer's `pos` advances
by `char::len_utf8` per character (`Lexer::bump`). -/
def utf8Len (cs : List Char) : Nat :=
  cs.foldl (fun a c => a + c.utf8Size) 0

/-- Result of `Lexer::next_token`: a token together with the updated byte
position and remaining input, end of input, a lexical error, or a panic (the
`unwrap` in `next_number` failing on an out-of-range integer literal). -/
inductive NextTokenResult where
  | tok (t : Token) (pos : Nat) (rest : List Char)
  | eof
  | invalid (e : LexicalError)
  | panic
deriving DecidableEq, Repr

/-- Body of `Lexer::next_token` after whitespace has been skipped and the first
character `c` has been bumped: `start` is the byte offset of `c` and `rest` the
input after `c`.  The arms mirror the `match char` in `lexer.rs` in order.
Character classes: Lean's `Char.isDigit` agrees with Rust's
`char::is_ascii_digit`; `Char.isAlpha` / `Char.isAlphanum` /
`Char.isWhitespace` restrict Rust's Unicode `is_alphabetic` /
`is_alphanumeric` / `is_whitespace` to their ASCII fragments, which covers
every input considered in this development. -/
def nextTokenAt (start : Nat) (c : Char) (rest : List Char) : NextTokenResult :=
  let pos := start + c.utf8Size
  if c = '+' then .tok ⟨⟨start, pos⟩, .Plus⟩ pos rest
  else if c = '-' then .tok ⟨⟨start, pos⟩, .Minus⟩ pos rest
  else if c = '*' then .tok ⟨⟨start, pos⟩, .Mul⟩ pos rest
  else if c = '/' then .tok ⟨⟨start, pos⟩, .Div⟩ pos rest
  else if c = '^' then .tok ⟨⟨start, pos⟩, .Pow⟩ pos rest
  else if c = '(' then .tok ⟨⟨start, pos⟩, .LeftParen⟩ pos rest
  else if c = ')' then .tok ⟨⟨start, pos⟩, .RightParen⟩ pos rest
  else if c = ';' then .tok ⟨⟨start, pos⟩, .Semicolon⟩ pos rest
  else if c = '=' then .tok ⟨⟨start, pos⟩, .Eq⟩ pos rest
  else if c = '\x7b' then .tok ⟨⟨start, pos⟩, .LeftBlock⟩ pos rest
  else if c = '\x7d' then .tok ⟨⟨start, pos⟩, .RightBlock⟩ pos rest
  else if c = '<' then
    match rest with
    | '=' :: rest2 => .tok ⟨⟨start, pos + 1⟩, .LtEq⟩ (pos + 1) rest2
    | _ => .tok ⟨⟨start, pos⟩, .Lt⟩ pos rest
  else if c = '>' then
    match rest with
    | '=' :: rest2 => .tok ⟨⟨start, pos + 1⟩, .GtEq⟩ (pos + 1) rest2
    | _ => .tok ⟨⟨start, pos⟩, .Gt⟩ pos rest
  else if c.isDigit then
    let ds := rest.takeWhile Char.isDigit
    let v := digitsVal (c :: ds)
    let pos2 := pos + utf8Len ds
    if v ≤ I32_MAX then
      .tok ⟨⟨start, pos2⟩, .Num (v : Int)⟩ pos2 (rest.dropWhile Char.isDigit)
    else .panic
  else if c.isAlpha then
    let letters := rest.takeWhile Char.isAlphanum
    let name := String.mk (c :: letters)
    let pos2 := pos + utf8Len letters
    let kind :=
      if name = "if" then TokenKind.If
      else if name = "while" then TokenKind.While
      else TokenKind.Ident name
    .tok ⟨⟨start, pos2⟩, kind⟩ pos2 (rest.dropWhile Char.isAlphanum)
  else .invalid (.InvalidToken (String.mk [c]) ⟨start, pos⟩)

/-- `Lexer::next_token`: skip whitespace, then read one token starting at byte
position `pos0` of the remaining input `cs0`. -/
def nextToken (pos0 : Nat) (cs0 : List Char) : NextTokenResult :=
  let start := pos0 + utf8Len (cs0.takeWhile Char.isWhitespace)
  match cs0.dropWhile Char.isWhitespace with
  | [] => .eof
  | c :: rest => nextTokenAt start c rest

/-- The loop of `Lexer::lex`, with fuel: collect tokens until `Eof`, stopping
with the error on an invalid character and with `none` when `next_number`
panics.  Fuel exhaustion also gives `none`; `lex` supplies enough fuel for it
never to be reached. -/
def lexLoop (fuel : Nat) (pos : Nat) (cs : List Char) :
    Option (Except LexicalError (List Token)) :=
  match fuel with
  | 0 => none
  | fuel + 1 =>
    match nextToken pos cs with
    | .eof => some (.ok [])
    | .invalid e => some (.error e)
    | .panic => none
    | .tok t p r =>
      match lexLoop fuel p r with
      | some (.ok ts) => some (.ok (t :: ts))
      | some (.error e) => some (.error e)
      | none => none

/-- `Lexer::lex` on the whole input: `some (.ok tokens)`, `some (.error e)` for
an invalid character, or `none` when the integer-parse `unwrap` in
`next_number` panics. -/
def lex (cs : List Char) : Option (Except LexicalError (List Token)) :=
  lexLoop (cs.length + 1) 0 cs

-- Sanity checks against the unit tests in `lexer.rs`.
example : lex "+".toList = some (.ok [⟨⟨0, 1⟩, .Plus⟩]) := rfl
example : lex "+ 123".toList =
    some (.ok [⟨⟨0, 1⟩, .Plus⟩, ⟨⟨2, 5⟩, .Num 123⟩]) := rfl
example : lex "(1)".toList =
    some (.ok [⟨⟨0, 1⟩, .LeftParen⟩, ⟨⟨1, 2⟩, .Num 1⟩, ⟨⟨2, 3⟩, .RightParen⟩]) := rfl
example : lex "(1<2)".toList =
    some (.ok [⟨⟨0, 1⟩, .LeftParen⟩, ⟨⟨1, 2⟩, .Num 1⟩, ⟨⟨2, 3⟩, .Lt⟩,
      ⟨⟨3, 4⟩, .Num 2⟩, ⟨⟨4, 5⟩, .RightParen⟩]) := rfl
example : lex "x=1; x".toList =
    some (.ok [⟨⟨0, 1⟩, .Ident "x"⟩, ⟨⟨1, 2⟩, .Eq⟩, ⟨⟨2, 3⟩, .Num 1⟩,
      ⟨⟨3, 4⟩, .Semicolon⟩, ⟨⟨5, 6⟩, .Ident "x"⟩]) := rfl
example : lex "if".toList = some (.ok [⟨⟨0, 2⟩, .If⟩]) := rfl
example : lex "while()".toList =
    some (.ok [⟨⟨0, 5⟩, .While⟩, ⟨⟨5, 6⟩, .LeftParen⟩, ⟨⟨6, 7⟩, .RightParen⟩]) := rfl
example : lex "1>=2".toList =
    some (.ok [⟨⟨0, 1⟩, .Num 1⟩, ⟨⟨1, 3⟩, .GtEq⟩, ⟨⟨3, 4⟩, .Num 2⟩]) := rfl

-- Operator precedence constants, from the `prec` module in `ast.rs`.
-- Note that `UNARY = MUL = 3` in the source.
namespace prec

/-- Lowest precedence, from `ast.rs` (`LOWEST`). -/
def LOWEST : Nat := 0

/-- Comparison operators, from `ast.rs` (`COMPARE`). -/
def COMPARE : Nat := 1

/-- Additive operators, from `ast.rs` (`PLUS`). -/
def PLUS : Nat := 2

/-- Multiplicative operators, from `ast.rs` (`MUL`). -/
def MUL : Nat := 3

/-- Unary minus, from `ast.rs` (`UNARY`); equal to `MUL` in the source. -/
def UNARY : Nat := 3

/-- Power operator, from `ast.rs` (`POW`). -/
def POW : Nat := 5

/-- Modelled from the spec: the assignment operator's precedence.  `ast.rs`
declares no `ASSIGN` constant although `parser.rs` parses assignments; the
spec's canonical table places ASSIGN strictly below COMPARE, which on the
snapshot's scale (`COMPARE = 1`) is `0`. -/
def ASSIGN : Nat := 0

end prec

/-- Operator associativity, from `ast.rs` (`Assoc`). -/
inductive Assoc where
  | Left
  | Right
deriving DecidableEq, Repr

/-- Precedence and associativity of an operator, from `ast.rs` (`OpInfo`). -/
structure OpInfo where
  prec : Nat
  assoc : Assoc
deriving DecidableEq, Repr

/-- `OpInfo::binds_at`, from `ast.rs`: `self.prec >= min_prec`. -/
def OpInfo.binds_at (info : OpInfo) (minPrec : Nat) : Bool :=
  info.prec ≥ minPrec

/-- Modelled from the spec: binary operators.  `Plus` through `LtEq` (without
`Eq`/`Neq`) are the variants declared in the snapshot's `ast.rs`; `Assign` is
referenced by `parser.rs` and `evaluator.rs`, and `Eq` (`==`) / `Neq` (`!=`)
by `codegen.rs`, but all three are absent from the snapshot's `ast.rs`. -/
inductive BinaryOp where
  | Plus
  | Minus
  | Mul
  | Div
  | Pow
  | Eq
  | Neq
  | Gt
  | GtEq
  | Lt
  | LtEq
  | Assign
deriving DecidableEq, Repr

/-- Unary operators, from `ast.rs` (`UnaryOp`). -/
inductive UnaryOp where
  | Minus
deriving DecidableEq, Repr

/-- `TryFrom<&TokenKind> for BinaryOp`, from `ast.rs`, as an `Option`.  The
rows for `Plus` through `LtEq` are from the snapshot's `ast.rs`; the rows for
`Assign`, `Eq` and `Neq` are modelled from the spec's token/operator tables
(`Assign(=) ↦ Assign`, `Eq(==) ↦ Eq`, `Neq ↦ Neq`), since `parser.rs` requires
a conversion producing `BinaryOp::Assign` that the snapshot's `ast.rs` lacks.
Every other token kind is not a binary operator. -/
def BinaryOp.tryFrom : TokenKind → Option BinaryOp
  | .Plus => some .Plus
  | .Minus => some .Minus
  | .Mul => some .Mul
  | .Div => some .Div
  | .Pow => some .Pow
  | .Gt => some .Gt
  | .Lt => some .Lt
  | .GtEq => some .GtEq
  | .LtEq => some .LtEq
  | .Assign => some .Assign
  | .Eq => some .Eq
  | .Neq => some .Neq
  | _ => none

/-- `BinaryOp::op_info`, from `ast.rs`.  The rows for the comparison, additive,
multiplicative and power operators are from the snapshot's `ast.rs`; the
`Eq`/`Neq` row extends the source's comparison row per the spec's COMPARE
group, and the `Assign` row is modelled from the spec (right-associative,
lowest binary precedence). -/
def BinaryOp.op_info : BinaryOp → OpInfo
  | .Gt | .GtEq | .Lt | .LtEq | .Eq | .Neq => ⟨prec.COMPARE, .Left⟩
  | .Plus | .Minus => ⟨prec.PLUS, .Left⟩
  | .Mul | .Div => ⟨prec.MUL, .Left⟩
  | .Pow => ⟨prec.POW, .Right⟩
  | .Assign => ⟨prec.ASSIGN, .Right⟩

/-- Modelled from the spec: expressions.  `Unary`, `Binary` and `Value` are the
variants of the snapshot's `ast.rs`; the `Var` variant is used by `parser.rs`,
`evaluator.rs` and `codegen.rs` but missing from the snapshot's `ast.rs`. -/
inductive Expression where
  | Unary (op : UnaryOp) (expr : Expression)
  | Binary (lhs : Expression) (op : BinaryOp) (rhs : Expression)
  | Value (n : Int)
  | Var (name : String)
deriving DecidableEq, Repr

/-- Whether an expression is a `Var` node (Rust `matches!(e, Expression::Var(_))`). -/
def Expression.isVar : Expression → Bool
  | .Var _ => true
  | _ => false

/-- Modelled from the spec: statements.  The `Statement` sum type with
`ExpressionStatement`, `BlockStatement`, `If {cond, then}`, `While {cond,
body}` and `For {init, cond, update, body}` is constructed by `parser.rs` and
consumed by `evaluator.rs` / `codegen.rs` but its declaration is missing from
the snapshot's `ast.rs`.  The nested `If`/`While`/`For` structs are inlined as
constructor fields. -/
inductive Statement where
  | ExpressionStatement (e : Expression)
  | BlockStatement (body : List Statement)
  | If (cond : Expression) (thenBody : List Statement)
  | While (cond : Expression) (body : List Statement)
  | For (init : Option Expression) (cond : Option Expression)
      (update : Option Expression) (body : List Statement)

/-- Modelled from the spec: a program is an ordered sequence of top-level
statements (`Program { body }`), constructed by `parser.rs`; its declaration is
missing from the snapshot's `ast.rs`. -/
structure Program where
  body : List Statement

/-- Syntax errors, from `parser.rs` (`SyntaxError`). -/
inductive SyntaxError where
  | UnmatchedLeftParen (t : Token)
  | UnexpectedToken (t : Token)
  | InvalidAssignmentTarget (t : Token)
  | UnexpectedEof
deriving DecidableEq, Repr

/-- Result of a parsing function: a value together with the unconsumed tokens,
a syntax error, or fuel exhaustion (which the chosen top-level fuel never
reaches; the Rust parser needs no fuel because every recursion consumes
input). -/
inductive PResult (α : Type) where
  | ok (val : α) (rest : List Token)
  | err (e : SyntaxError)
  | fuel

/-- `Parser::expect`, from `parser.rs`: consume the next token if it has the
expected kind, else `UnexpectedToken` / `UnexpectedEof`. -/
def expect (expected : TokenKind) (toks : List Token) : PResult Unit :=
  match toks with
  | t :: rest => if t.kind = expected then .ok () rest else .err (.UnexpectedToken t)
  | [] => .err .UnexpectedEof

mutual

/-- `Parser::program`, from `parser.rs`: one statement, then further statements
until the token stream is exhausted. -/
def program (fuel : Nat) (toks : List Token) : PResult Program :=
  match fuel with
  | 0 => .fuel
  | fuel + 1 =>
    match stmt fuel toks with
    | .ok s toks =>
      match programRest fuel toks with
      | .ok ss toks => .ok ⟨s :: ss⟩ toks
      | .err e => .err e
      | .fuel => .fuel
    | .err e => .err e
    | .fuel => .fuel

/-- The `while !self.is_eof()` loop of `Parser::program`. -/
def programRest (fuel : Nat) (toks : List Token) : PResult (List Statement) :=
  match fuel with
  | 0 => .fuel
  | fuel + 1 =>
    match toks with
    | [] => .ok [] []
    | _ =>
      match stmt fuel toks with
      | .ok s toks =>
        match programRest fuel toks with
        | .ok ss toks => .ok (s :: ss) toks
        | .err e => .err e
        | .fuel => .fuel
      | .err e => .err e
      | .fuel => .fuel

/-- `Parser::stmt`, from `parser.rs`: dispatch on the peeked token kind. -/
def stmt (fuel : Nat) (toks : List Token) : PResult Statement :=
  match fuel with
  | 0 => .fuel
  | fuel + 1 =>
    match toks with
    | [] => .err .UnexpectedEof
    | t :: _ =>
      match t.kind with
      | .If => ifStmt fuel toks
      | .While => whileStmt fuel toks
      | .For => forStmt fuel toks
      | .LeftBlock => blockStatement fuel toks
      | _ =>
        match expr fuel prec.LOWEST toks with
        | .ok e toks =>
          match expect .Semicolon toks with
          | .ok _ toks => .ok (.ExpressionStatement e) toks
          | .err e => .err e
          | .fuel => .fuel
        | .err e => .err e
        | .fuel => .fuel

/-- `Parser::if`, from `parser.rs`: `"if" "(" E ")" "{" { Stmt } "}"`.  The
leading keyword token is consumed unconditionally (`self.src.next()`). -/
def ifStmt (fuel : Nat) (toks : List Token) : PResult Statement :=
  match fuel with
  | 0 => .fuel
  | fuel + 1 =>
    let toks := toks.tail
    match expect .LeftParen toks with
    | .ok _ toks =>
      match expr fuel prec.LOWEST toks with
      | .ok cond toks =>
        match expect .RightParen toks with
        | .ok _ toks =>
          match expect .LeftBlock toks with
          | .ok _ toks =>
            match blockBody fuel toks with
            | .ok body toks =>
              match expect .RightBlock toks with
              | .ok _ toks => .ok (.If cond body) toks
              | .err e => .err e
              | .fuel => .fuel
            | .err e => .err e
            | .fuel => .fuel
          | .err e => .err e
          | .fuel => .fuel
        | .err e => .err e
        | .fuel => .fuel
      | .err e => .err e
      | .fuel => .fuel
    | .err e => .err e
    | .fuel => .fuel

/-- `Parser::while`, from `parser.rs`: `"while" "(" E ")" "{" { Stmt } "}"`. -/
def whileStmt (fuel : Nat) (toks : List Token) : PResult Statement :=
  match fuel with
  | 0 => .fuel
  | fuel + 1 =>
    let toks := toks.tail
    match expect .LeftParen toks with
    | .ok _ toks =>
      match expr fuel prec.LOWEST toks with
      | .ok cond toks =>
        match expect .RightParen toks with
        | .ok _ toks =>
          match expect .LeftBlock toks with
          | .ok _ toks =>
            match blockBody fuel toks with
            | .ok body toks =>
              match expect .RightBlock toks with
              | .ok _ toks => .ok (.While cond body) toks
              | .err e => .err e
              | .fuel => .fuel
            | .err e => .err e
            | .fuel => .fuel
          | .err e => .err e
          | .fuel => .fuel
        | .err e => .err e
        | .fuel => .fuel
      | .err e => .err e
      | .fuel => .fuel
    | .err e => .err e
    | .fuel => .fuel

/-- `Parser::for`, from `parser.rs`:
`"for" "(" [E] ";" [E] ";" [E] ")" "{" { Stmt } "}"`.  Each of `init`/`cond`
is parsed only if the peeked token is not `;`, and `update` only if the peeked
token is not `)`. -/
def forStmt (fuel : Nat) (toks : List Token) : PResult Statement :=
  match fuel with
  | 0 => .fuel
  | fuel + 1 =>
    let toks := toks.tail
    match expect .LeftParen toks with
    | .ok _ toks =>
      match optExpr fuel .Semicolon toks with
      | .ok init toks =>
        match expect .Semicolon toks with
        | .ok _ toks =>
          match optExpr fuel .Semicolon toks with
          | .ok cond toks =>
            match expect .Semicolon toks with
            | .ok _ toks =>
              match optExpr fuel .RightParen toks with
              | .ok update toks =>
                match expect .RightParen toks with
                | .ok _ toks =>
                  match expect .LeftBlock toks with
                  | .ok _ toks =>
                    match blockBody fuel toks with
                    | .ok body toks =>
                      match expect .RightBlock toks with
                      | .ok _ toks => .ok (.For init cond update body) toks
                      | .err e => .err e
                      | .fuel => .fuel
                    | .err e => .err e
                    | .fuel => .fuel
                  | .err e => .err e
                  | .fuel => .fuel
                | .err e => .err e
                | .fuel => .fuel
              | .err e => .err e
              | .fuel => .fuel
            | .err e => .err e
            | .fuel => .fuel
          | .err e => .err e
          | .fuel => .fuel
        | .err e => .err e
        | .fuel => .fuel
      | .err e => .err e
      | .fuel => .fuel
    | .err e => .err e
    | .fuel => .fuel

/-- The optional-expression pattern of `Parser::for`: parse an expression at
`LOWEST` precedence unless the peeked token is `stopTok` (or the stream is
empty), in which case parse nothing. -/
def optExpr (fuel : Nat) (stopTok : TokenKind) (toks : List Token) :
    PResult (Option Expression) :=
  match fuel with
  | 0 => .fuel
  | fuel + 1 =>
    match toks with
    | [] => .ok none []
    | t :: _ =>
      if t.kind = stopTok then .ok none toks
      else
        match expr fuel prec.LOWEST toks with
        | .ok e toks => .ok (some e) toks
        | .err e => .err e
        | .fuel => .fuel

/-- `Parser::block_statement`, from `parser.rs`: `"{" { Stmt } "}"`. -/
def blockStatement (fuel : Nat) (toks : List Token) : PResult Statement :=
  match fuel with
  | 0 => .fuel
  | fuel + 1 =>
    match expect .LeftBlock toks with
    | .ok _ toks =>
      match blockBody fuel toks with
      | .ok body toks =>
        match expect .RightBlock toks with
        | .ok _ toks => .ok (.BlockStatement body) toks
        | .err e => .err e
        | .fuel => .fuel
      | .err e => .err e
      | .fuel => .fuel
    | .err e => .err e
    | .fuel => .fuel

/-- The statement-collecting loop shared by `if`/`while`/`for`/`block` rules in
`parser.rs`: parse statements while the peeked token exists and is not `}`. -/
def blockBody (fuel : Nat) (toks : List Token) : PResult (List Statement) :=
  match fuel with
  | 0 => .fuel
  | fuel + 1 =>
    match toks with
    | [] => .ok [] []
    | t :: _ =>
      if t.kind = .RightBlock then .ok [] toks
      else
        match stmt fuel toks with
        | .ok s toks =>
          match blockBody fuel toks with
          | .ok ss toks => .ok (s :: ss) toks
          | .err e => .err e
          | .fuel => .fuel
        | .err e => .err e
        | .fuel => .fuel

/-- `Parser::expr`, from `parser.rs`: precedence climbing.  Parse one primary
as the left-hand side, then fold binary operators via `exprLoop`. -/
def expr (fuel : Nat) (minPrec : Nat) (toks : List Token) : PResult Expression :=
  match fuel with
  | 0 => .fuel
  | fuel + 1 =>
    match primary fuel toks with
    | .ok lhs toks => exprLoop fuel minPrec lhs toks
    | .err e => .err e
    | .fuel => .fuel

/-- The `while let Some(tok) = self.src.peek()` loop of `Parser::expr`: while
the peeked token converts to a binary operator that binds at `minPrec`,
check the assignment left-hand side, consume the operator, parse the
right-hand side at the associativity-adjusted precedence, and fold. -/
def exprLoop (fuel : Nat) (minPrec : Nat) (lhs : Expression) (toks : List Token) :
    PResult Expression :=
  match fuel with
  | 0 => .fuel
  | fuel + 1 =>
    match toks with
    | [] => .ok lhs []
    | t :: rest =>
      match BinaryOp.tryFrom t.kind with
      | none => .ok lhs (t :: rest)
      | some op =>
        let info := op.op_info
        if ¬ info.binds_at minPrec then .ok lhs (t :: rest)
        else if op = .Assign ∧ ¬ lhs.isVar then .err (.InvalidAssignmentTarget t)
        else
          let nextPrec :=
            match info.assoc with
            | .Left => info.prec + 1
            | .Right => info.prec
          match expr fuel nextPrec rest with
          | .ok rhs toks => exprLoop fuel minPrec (.Binary lhs op rhs) toks
          | .err e => .err e
          | .fuel => .fuel

/-- `Parser::primary`, from `parser.rs`: number literal, unary minus (operand
parsed at `prec::UNARY`), parenthesized expression (reset to `prec::LOWEST`,
any failure of the closing-parenthesis `expect` becomes `UnmatchedLeftParen`
on the opening token), or identifier; anything else is `UnexpectedToken`, and
an empty stream is `UnexpectedEof`. -/
def primary (fuel : Nat) (toks : List Token) : PResult Expression :=
  match fuel with
  | 0 => .fuel
  | fuel + 1 =>
    match toks with
    | [] => .err .UnexpectedEof
    | t :: rest =>
      match t.kind with
      | .Num n => .ok (.Value n) rest
      | .Minus =>
        match expr fuel prec.UNARY rest with
        | .ok e toks => .ok (.Unary .Minus e) toks
        | .err e => .err e
        | .fuel => .fuel
      | .LeftParen =>
        match expr fuel prec.LOWEST rest with
        | .ok e toks =>
          match expect .RightParen toks with
          | .ok _ toks => .ok e toks
          | .err _ => .err (.UnmatchedLeftParen t)
          | .fuel => .fuel
        | .err e => .err e
        | .fuel => .fuel
      | .Ident name => .ok (.Var name) rest
      | _ => .err (.UnexpectedToken t)

end

/-- `Parser::parse` on a token list, with fuel ample for the input size. -/
def parseProgram (toks : List Token) : PResult Program :=
  program (8 * toks.length + 8) toks

/-- Convenience constructor for unspanned test tokens: kind plus span bounds. -/
def tok (kind : TokenKind) (start stop : Nat) : Token := ⟨⟨start, stop⟩, kind⟩

end ExprLang

namespace ExprLang

/-- Two's-complement wrap of an integer into the `i32` range
`[-2147483648, 2147483647]`; the release-profile semantics of Rust's `i32`
arithmetic operators, used by `evaluator.rs`.  No scenario considered in this
development ever overflows, so the wrap is the identity wherever it is
exercised. -/
def wrap32 (n : Int) : Int :=
  (n + 2147483648) % 4294967296 - 2147483648

/-- Rust `i32` division as used in `Evaluator::expr` for `BinaryOp::Div`:
truncating division, panicking (`none`) when the divisor is zero or on the
single overflowing case `i32::MIN / -1`. -/
def i32Div (a b : Int) : Option Int :=
  if b = 0 then none
  else if a = -2147483648 ∧ b = -1 then none
  else some (a.tdiv b)

/-- The evaluator's variable environment, from `evaluator.rs` (`Environment`):
a flat name-to-`i32` map.  The `HashMap` is embedded as an association list
where `define` prepends and `get` takes the first (most recent) binding, which
realizes the map's insert-overwrites semantics. -/
def Env : Type := List (String × Int)

/-- `Environment::define`, from `evaluator.rs`. -/
def Env.define (env : Env) (name : String) (n : Int) : Env := (name, n) :: env

/-- `Environment::get`, from `evaluator.rs`. -/
def Env.get (env : Env) (name : String) : Option Int :=
  List.lookup name env

/-- `Evaluator::expr`, from `evaluator.rs`.  Returns the value together with
the updated environment (assignment mutates it), or `none` for a panic: the
`unwrap` on an unbound variable read, Rust division by zero (or `i32::MIN /
-1`), and the `unreachable!` for an assignment whose left-hand side is not a
`Var`.  The `Eq`/`Neq` comparison arms are modelled from the spec (`1` for
true, `0` for false, as for the other comparisons); the snapshot's
`evaluator.rs` predates those operators.  Arithmetic wraps via `wrap32`; `Pow`
casts the right operand `as u32` (embedded as `emod 2^32`) and exponentiates. -/
def evalExpr : Expression → Env → Option (Int × Env)
  | .Unary .Minus e, env =>
    (evalExpr e env).map (fun p => (wrap32 (-p.1), p.2))
  | .Binary lhs .Assign rhs, env =>
    match lhs with
    | .Var name => (evalExpr rhs env).map (fun p => (p.1, p.2.define name p.1))
    | _ => none
  | .Binary lhs op rhs, env => do
    let (a, env1) ← evalExpr lhs env
    let (b, env2) ← evalExpr rhs env1
    match op with
    | .Plus => some (wrap32 (a + b), env2)
    | .Minus => some (wrap32 (a - b), env2)
    | .Mul => some (wrap32 (a * b), env2)
    | .Div => (i32Div a b).map (fun q => (q, env2))
    | .Pow => some (wrap32 (a ^ (b.emod 4294967296).toNat), env2)
    | .Gt => some (if a > b then 1 else 0, env2)
    | .GtEq => some (if a ≥ b then 1 else 0, env2)
    | .Lt => some (if a < b then 1 else 0, env2)
    | .LtEq => some (if a ≤ b then 1 else 0, env2)
    | .Eq => some (if a = b then 1 else 0, env2)
    | .Neq => some (if a = b then 0 else 1, env2)
    | .Assign => none
  | .Value v, _env => some (v, _env)
  | .Var name, env => (env.get name).map (fun v => (v, env))

mutual

/-- `Evaluator::stmt`, from `evaluator.rs`: statement evaluation returning the
statement's value and the updated environment.  Loops consume fuel; `none`
from fuel exhaustion is never reached at the fuel the entry point supplies for
the terminating programs considered here. -/
def evalStmt (fuel : Nat) (s : Statement) (env : Env) : Option (Int × Env) :=
  match fuel with
  | 0 => none
  | fuel + 1 =>
    match s with
    | .ExpressionStatement e => evalExpr e env
    | .BlockStatement body => evalStmtSeq fuel body 0 env
    | .If cond thenBody => do
      let (c, env1) ← evalExpr cond env
      if c > 0 then evalStmtSeq fuel thenBody 0 env1 else some (0, env1)
    | .While cond body => whileLoop fuel cond body 0 env
    | .For init cond update body => do
      let (res0, env1) ←
        match init with
        | none => some ((0 : Int), env)
        | some i => evalExpr i env
      match cond with
      | none => some ((0 : Int), env1)
      | some c => forLoop fuel c update body res0 env1

/-- The `for s in list { result = self.stmt(s) }` pattern of `evaluator.rs`:
run the statements in order, threading the running result (left unchanged by
an empty list) and the environment. -/
def evalStmtSeq (fuel : Nat) (list : List Statement) (res : Int) (env : Env) :
    Option (Int × Env) :=
  match fuel with
  | 0 => none
  | fuel + 1 =>
    match list with
    | [] => some (res, env)
    | s :: rest => do
      let (r, env1) ← evalStmt fuel s env
      evalStmtSeq fuel rest r env1

/-- The `while self.expr(cond) > 0` loop of `Evaluator::stmt` for `While`. -/
def whileLoop (fuel : Nat) (cond : Expression) (body : List Statement)
    (res : Int) (env : Env) : Option (Int × Env) :=
  match fuel with
  | 0 => none
  | fuel + 1 => do
    let (c, env1) ← evalExpr cond env
    if c > 0 then do
      let (r, env2) ← evalStmtSeq fuel body res env1
      whileLoop fuel cond body r env2
    else some (res, env1)

/-- The `while self.expr(cond) > 0` loop of `Evaluator::stmt` for `For`: run
the body (its result becomes the running result), then evaluate `update` if
present discarding its value, and repeat. -/
def forLoop (fuel : Nat) (cond : Expression) (update : Option Expression)
    (body : List Statement) (res : Int) (env : Env) : Option (Int × Env) :=
  match fuel with
  | 0 => none
  | fuel + 1 => do
    let (c, env1) ← evalExpr cond env
    if c > 0 then do
      let (r, env2) ← evalStmtSeq fuel body res env1
      let env3 ←
        match update with
        | none => some env2
        | some u => (evalExpr u env2).map (fun p => p.2)
      forLoop fuel cond update body r env3
    else some (res, env1)

end

/-- `Evaluator::eval`, from `evaluator.rs`: starting from an empty
environment, run the program's statements in order with running result `0` and
return the final result.  The fixed fuel comfortably covers every terminating
program considered in this development. -/
def evaluate (p : Program) : Option Int :=
  (evalStmtSeq 1000 p.body 0 []).map (fun r => r.1)

-- Sanity checks against the spec's interpreter scenarios (at the AST level).
example : evaluate ⟨[.ExpressionStatement
    (.Binary (.Value 1) .Plus (.Binary (.Value 2) .Mul (.Value 3)))]⟩ = some 7 := rfl
example : evaluate ⟨[.ExpressionStatement
    (.Binary (.Binary (.Value 1) .Plus (.Value 2)) .Mul (.Value 3))]⟩ = some 9 := rfl
example : evaluate ⟨[.ExpressionStatement (.Unary .Minus (.Value 1))]⟩ = some (-1) := rfl
example : evaluate ⟨[.ExpressionStatement
    (.Binary (.Value 10) .Pow (.Value 2))]⟩ = some 100 := rfl
example : evaluate ⟨[
    .ExpressionStatement (.Binary (.Var "x") .Assign (.Value 0)),
    .While (.Binary (.Var "x") .Lt (.Value 1))
      [.ExpressionStatement (.Binary (.Var "x") .Assign (.Value 1))],
    .ExpressionStatement (.Var "x")]⟩ = some 1 := rfl
example : evaluate ⟨[.ExpressionStatement
    (.Binary (.Unary .Minus (.Value 7)) .Div (.Value 2))]⟩ = some (-3) := rfl

-- A two-iteration for loop: "for (i=0; i<2; i=i+1) { i+10; }" runs the body
-- with i = 0 and i = 1, the body's value becomes the running result, the
-- update's value is discarded, and the final running result 11 is returned.
set_option maxHeartbeats 1000000 in
example : evaluate ⟨[
    .For
      (some (.Binary (.Var "i") .Assign (.Value 0)))
      (some (.Binary (.Var "i") .Lt (.Value 2)))
      (some (.Binary (.Var "i") .Assign (.Binary (.Var "i") .Plus (.Value 1))))
      [.ExpressionStatement (.Binary (.Var "i") .Plus (.Value 10))]]⟩ =
    some 11 := rfl

/-- `CodeGenerator::expr`, from `codegen.rs`: the assembly lines pushed for one
expression, each expression leaving one value on the stack.  `none` embeds the
`unimplemented!` panics for `BinaryOp::Assign` and `Expression::Var`.  The
instruction text is reproduced verbatim, including the fixed backward-branch
labels of the `Pow` loop and the comment suffixes. -/
def genExpr : Expression → Option (List String)
  | .Unary .Minus e =>
    (genExpr e).map (fun ls => ls ++
      ["    ldr x0, [sp], #16",
       "    neg x0, x0",
       "    str x0, [sp, #-16]!"])
  | .Binary lhs op rhs => do
    let l ← genExpr lhs
    let r ← genExpr rhs
    let popPop := ["    ldr x1, [sp], #16", "    ldr x0, [sp], #16"]
    let push := ["    str x0, [sp, #-16]!"]
    match op with
    | .Plus => some (l ++ r ++ popPop ++ ["    add x0, x0, x1"] ++ push)
    | .Minus => some (l ++ r ++ popPop ++ ["    sub x0, x0, x1"] ++ push)
    | .Mul => some (l ++ r ++ popPop ++ ["    mul x0, x0, x1"] ++ push)
    | .Div => some (l ++ r ++ popPop ++ ["    sdiv x0, x0, x1"] ++ push)
    | .Pow => some (l ++ r ++ popPop ++
        ["    mov x2, #1",
         "0:  ",
         "    mul x2, x2, x0",
         "    subs x1, x1, #1  ; b-- and set flags",
         "    b.ne 0b",
         "1:  ",
         "    mov x0, x2"] ++ push)
    | .Eq => some (l ++ r ++ popPop ++
        ["    cmp x0, x1", "    cset x0, eq  ; x0 = 1 if x0 == x1"] ++ push)
    | .Neq => some (l ++ r ++ popPop ++
        ["    cmp x0, x1", "    cset x0, ne  ; x0 = 1 if x0 != x1"] ++ push)
    | .Gt => some (l ++ r ++ popPop ++
        ["    cmp x0, x1", "    cset x0, gt  ; x0 = 1 if x0 > x1"] ++ push)
    | .GtEq => some (l ++ r ++ popPop ++
        ["    cmp x0, x1", "    cset x0, ge  ; x0 = 1 if x0 >= x1"] ++ push)
    | .Lt => some (l ++ r ++ popPop ++
        ["    cmp x0, x1", "    cset x0, lt  ; x0 = 1 if x0 < x1"] ++ push)
    | .LtEq => some (l ++ r ++ popPop ++
        ["    cmp x0, x1", "    cset x0, le  ; x0 = 1 if x0 <= x1"] ++ push)
    | .Assign => none
  | .Value n => some ["    mov x0, #" ++ toString n, "    str x0, [sp, #-16]!"]
  | .Var _name => none

mutual

/-- `CodeGenerator::stmt`, from `codegen.rs`.  An `If` emits the condition,
pops and compares it with zero, branches to the FIXED label `.LelseXXX` when
it is zero, emits the then-branch, jumps to the fixed label `.LendXXX`, and
defines both labels; the label text does not depend on the statement, so every
`If` in a program emits the same two label definitions.  `BlockStatement`,
`While` and `For` are `unimplemented!` (`none`). -/
def genStmt (fuel : Nat) (s : Statement) : Option (List String) :=
  match fuel with
  | 0 => none
  | fuel + 1 =>
    match s with
    | .ExpressionStatement e =>
      (genExpr e).map (fun ls => ls ++ ["    ldr x0, [sp], #16"])
    | .If cond thenBody => do
      let c ← genExpr cond
      let t ← genStmtSeq fuel thenBody
      some (c ++
        ["    ldr x0, [sp], #16",
         "    cmp x0, #0",
         "    b.eq .LelseXXX"] ++
        t ++
        ["    b .LendXXX",
         ".LelseXXX:",
         ".LendXXX:"])
    | .BlockStatement _ => none
    | .While _ _ => none
    | .For _ _ _ _ => none

/-- Statement-sequence code generation (the `for s in ...` loops of
`codegen.rs`). -/
def genStmtSeq (fuel : Nat) (list : List Statement) : Option (List String) :=
  match fuel with
  | 0 => none
  | fuel + 1 =>
    match list with
    | [] => some []
    | s :: rest => do
      let l ← genStmt fuel s
      let ls ← genStmtSeq fuel rest
      some (l ++ ls)

end

/-- `CodeGenerator::generate`, from `codegen.rs`, as the list of emitted
assembly lines: prologue, the statements, epilogue.  `codegen.rs` joins these
lines with newlines (`print`). -/
def generateLines (p : Program) : Option (List String) :=
  (genStmtSeq 1000 p.body).map (fun ls =>
    ["    .globl _main", "_main:"] ++ ls ++ ["    ldr x0, [sp], #16", "    ret"])

/-- `CodeGenerator::generate` joined to the final assembly text. -/
def generate (p : Program) : Option String :=
  (generateLines p).map (fun ls => String.intercalate "\n" ls)

/-!
Claim theorems.  Each theorem is named after its claim id from the frozen
claim list; counterexamples and witnesses are separate closed theorems.
-/

/-- C1: the claim asserts that unary minus binds tighter than `*`, so that
"-1*2" parses as `Binary{Unary{-,1}, *, 2}`.  The code refutes it: the
snapshot's precedence table has `prec::UNARY == prec::MUL == 3`, so after
`Parser::primary` consumes the `-` and recurses at `prec::UNARY`, the `*`
still binds (`3 >= 3`) and the multiplication is folded INSIDE the unary
operand: the token sequence of "-1*2" parses as `Unary{-, Binary{1, *, 2}}`,
which is a different AST from the claimed one.  This contradicts the
precedence list in `parser.rs`'s own doc comment, which places unary minus
strictly above `*` and `/`. -/
theorem C1_unary_minus_vs_mul :
    prec.UNARY = prec.MUL
    ∧ parseProgram [tok .Minus 0 1, tok (.Num 1) 1 2, tok .Mul 2 3,
        tok (.Num 2) 3 4, tok .Semicolon 4 5] =
      .ok ⟨[.ExpressionStatement (.Unary .Minus (.Binary (.Value 1) .Mul (.Value 2)))]⟩ []
    ∧ (Expression.Unary .Minus (.Binary (.Value 1) .Mul (.Value 2)) ≠
        Expression.Binary (.Unary .Minus (.Value 1)) .Mul (.Value 2)) :=
  ⟨rfl, rfl, by decide⟩

/-- C2 counterexample: the claim asserts that the lexer recognizes `==` and
`!=` and that a lone `=` lexes to an `Assign` token.  The code refutes it:
`lexer.rs` maps `=` directly to the token kind `Eq` with no lookahead, so
"==" lexes as TWO `Eq` tokens rather than one two-character token, and `!` is
not recognized at all, so "!=" is an `InvalidToken` error rather than `Neq`. -/
theorem C2_counterexample_lookahead :
    lex "==".toList = some (.ok [tok .Eq 0 1, tok .Eq 1 2])
    ∧ ([tok .Eq 0 1, tok .Eq 1 2] : List Token).length ≠ 1
    ∧ lex "=".toList = some (.ok [tok .Eq 0 1])
    ∧ TokenKind.Eq ≠ TokenKind.Assign
    ∧ lex "!=".toList = some (.error (.InvalidToken "!" ⟨0, 1⟩)) :=
  ⟨rfl, by decide, rfl, by decide, rfl⟩

/-- Lookahead behavior of the lexer after `<`: `LtEq` exactly when the next
character is `=`, else fall back to `Lt` without consuming it. -/
theorem nextTokenAt_lt (s : Nat) (c : Char) (r : List Char) :
    nextTokenAt s '<' (c :: r) =
      if c = '=' then .tok ⟨⟨s, s + 2⟩, .LtEq⟩ (s + 2) r
      else .tok ⟨⟨s, s + 1⟩, .Lt⟩ (s + 1) (c :: r) := by
  by_cases h : c = '='
  · subst h; rfl
  · rw [if_neg h]
    show (match c :: r with
      | '=' :: rest2 =>
        NextTokenResult.tok ⟨⟨s, s + 1 + 1⟩, .LtEq⟩ (s + 1 + 1) rest2
      | _ => NextTokenResult.tok ⟨⟨s, s + 1⟩, .Lt⟩ (s + 1) (c :: r)) =
      NextTokenResult.tok ⟨⟨s, s + 1⟩, .Lt⟩ (s + 1) (c :: r)
    split
    · rename_i heq
      cases heq
      exact absurd rfl h
    · rfl

/-- Lookahead behavior of the lexer after `>`: `GtEq` exactly when the next
character is `=`, else fall back to `Gt` without consuming it. -/
theorem nextTokenAt_gt (s : Nat) (c : Char) (r : List Char) :
    nextTokenAt s '>' (c :: r) =
      if c = '=' then .tok ⟨⟨s, s + 2⟩, .GtEq⟩ (s + 2) r
      else .tok ⟨⟨s, s + 1⟩, .Gt⟩ (s + 1) (c :: r) := by
  by_cases h : c = '='
  · subst h; rfl
  · rw [if_neg h]
    show (match c :: r with
      | '=' :: rest2 =>
        NextTokenResult.tok ⟨⟨s, s + 1 + 1⟩, .GtEq⟩ (s + 1 + 1) rest2
      | _ => NextTokenResult.tok ⟨⟨s, s + 1⟩, .Gt⟩ (s + 1) (c :: r)) =
      NextTokenResult.tok ⟨⟨s, s + 1⟩, .Gt⟩ (s + 1) (c :: r)
    split
    · rename_i heq
      cases heq
      exact absurd rfl h
    · rfl

/-- C2 (amended): the lexer performs one character of lookahead only after `<`
and `>`, producing `LtEq`/`GtEq` when the next character is `=` and falling
back to `Lt`/`Gt` otherwise (also at end of input); `=` lexes directly to the
single-character token `Eq` (the token used for assignment) with no lookahead,
"==" therefore lexes as two consecutive `Eq` tokens, and `!` is an invalid
character. -/
theorem C2_single_lookahead :
    (∀ s c r, nextTokenAt s '<' (c :: r) =
      if c = '=' then .tok ⟨⟨s, s + 2⟩, .LtEq⟩ (s + 2) r
      else .tok ⟨⟨s, s + 1⟩, .Lt⟩ (s + 1) (c :: r))
    ∧ (∀ s, nextTokenAt s '<' [] = .tok ⟨⟨s, s + 1⟩, .Lt⟩ (s + 1) [])
    ∧ (∀ s c r, nextTokenAt s '>' (c :: r) =
      if c = '=' then .tok ⟨⟨s, s + 2⟩, .GtEq⟩ (s + 2) r
      else .tok ⟨⟨s, s + 1⟩, .Gt⟩ (s + 1) (c :: r))
    ∧ (∀ s, nextTokenAt s '>' [] = .tok ⟨⟨s, s + 1⟩, .Gt⟩ (s + 1) [])
    ∧ (∀ s r, nextTokenAt s '=' r = .tok ⟨⟨s, s + 1⟩, .Eq⟩ (s + 1) r)
    ∧ lex "==".toList = some (.ok [tok .Eq 0 1, tok .Eq 1 2])
    ∧ lex "!=".toList = some (.error (.InvalidToken "!" ⟨0, 1⟩)) := by
  exact ⟨nextTokenAt_lt, fun s => rfl, nextTokenAt_gt, fun s => rfl,
    fun s r => rfl, rfl, rfl⟩

/-- C3: the claim asserts that reading an unbound variable and dividing by
zero each raise a distinct, typed, catchable runtime error and never abort the
process.  The code refutes it: `Evaluator::expr` reads a variable with
`self.env.get(name).unwrap()` and divides with the native `/`, so both an
unbound-variable read (program "x;") and a zero divisor (program "1/0;")
panic — embedded here as the evaluator returning `none` rather than any typed
error value. -/
theorem C3_runtime_errors_abort :
    evaluate ⟨[.ExpressionStatement (.Var "x")]⟩ = none
    ∧ evaluate ⟨[.ExpressionStatement (.Binary (.Value 1) .Div (.Value 0))]⟩ = none :=
  ⟨rfl, rfl⟩

/-- C4: the claim asserts that the generated assembly never defines the same
label text twice.  The code refutes it: `CodeGenerator::stmt` emits the FIXED
labels `.LelseXXX:` and `.LendXXX:` for every `If`, so a program with two if
statements defines each label twice. -/
theorem C4_duplicate_labels :
    (generateLines ⟨[.If (.Value 1) [.ExpressionStatement (.Value 1)],
        .If (.Value 1) [.ExpressionStatement (.Value 1)]]⟩).map
      (fun ls => (ls.count ".LelseXXX:", ls.count ".LendXXX:")) = some (2, 2) := rfl

/-- C5: in `Parser::expr`, when the next operator is `Assign` and the
already-parsed left-hand side is not a `Var` node, parsing fails with
`InvalidAssignmentTarget` carrying that operator token; in particular the
token sequence of "1=2;" fails with `InvalidAssignmentTarget` on the `=`
token at bytes 1..2. -/
theorem C5_invalid_assignment_target :
    (∀ fuel minPrec lhs t rest, lhs.isVar = false → t.kind = .Assign →
      minPrec = 0 →
      exprLoop (fuel + 1) minPrec lhs (t :: rest) =
        .err (.InvalidAssignmentTarget t))
    ∧ parseProgram [tok (.Num 1) 0 1, tok .Assign 1 2, tok (.Num 2) 2 3,
        tok .Semicolon 3 4] = .err (.InvalidAssignmentTarget (tok .Assign 1 2)) := by
  refine ⟨?_, rfl⟩
  intro fuel minPrec lhs t rest h1 h2 h3
  subst h3
  simp [exprLoop, h2, BinaryOp.tryFrom, BinaryOp.op_info, OpInfo.binds_at, h1, prec.ASSIGN]

/-- C5 witness: the general part of `C5_invalid_assignment_target` applied to
the non-`Var` left-hand side `Value 1` and an `=` token. -/
theorem C5_witness :
    exprLoop 6 0 (.Value 1) [tok .Assign 1 2] =
      .err (.InvalidAssignmentTarget (tok .Assign 1 2)) :=
  C5_invalid_assignment_target.1 5 0 (.Value 1) (tok .Assign 1 2) [] rfl rfl rfl

/-- C6: associativity.  `Assign` and `Pow` are the right-associative
operators, all others are left-associative; consequently the token sequence of
"1-2-3" parses as `(1-2)-3` and that of "2^3^2" parses as `2^(3^2)`. -/
theorem C6_associativity :
    (∀ op : BinaryOp, op.op_info.assoc =
      (if op = .Assign ∨ op = .Pow then Assoc.Right else Assoc.Left))
    ∧ expr 50 prec.LOWEST [tok (.Num 1) 0 1, tok .Minus 1 2, tok (.Num 2) 2 3,
        tok .Minus 3 4, tok (.Num 3) 4 5] =
      .ok (.Binary (.Binary (.Value 1) .Minus (.Value 2)) .Minus (.Value 3)) []
    ∧ expr 50 prec.LOWEST [tok (.Num 2) 0 1, tok .Pow 1 2, tok (.Num 3) 2 3,
        tok .Pow 3 4, tok (.Num 2) 4 5] =
      .ok (.Binary (.Value 2) .Pow (.Binary (.Value 3) .Pow (.Value 2))) [] := by
  refine ⟨?_, rfl, rfl⟩
  intro op
  cases op <;> rfl

/-- C7: `For` evaluation.  If `init` is present it is evaluated exactly once
(including its environment effects); when `cond` is absent the body is never
executed and the statement yields `0`; when `cond` is present the body runs
while `cond > 0`, the body's result becomes the running result, the value of
`update` is discarded, and the running result is returned.  Concretely, the
program "for (x=0;;) \x7b x=1; \x7d x;" evaluates to `0` (the body never ran,
else the final `x;` would read `1`), and a two-iteration loop
"for (i=0; i<2; i=i+1) \x7b i+10; \x7d" returns its last body value `11`. -/
theorem C7_for_statement :
    (∀ fuel env i update body,
      evalStmt (fuel + 1) (.For (some i) none update body) env =
        (evalExpr i env).map (fun p => (0, p.2)))
    ∧ (∀ fuel env update body,
      evalStmt (fuel + 1) (.For none none update body) env = some (0, env))
    ∧ evaluate ⟨[
        .For (some (.Binary (.Var "x") .Assign (.Value 0))) none none
          [.ExpressionStatement (.Binary (.Var "x") .Assign (.Value 1))],
        .ExpressionStatement (.Var "x")]⟩ = some 0
    ∧ evaluate ⟨[
        .For (some (.Binary (.Var "i") .Assign (.Value 0)))
          (some (.Binary (.Var "i") .Lt (.Value 2)))
          (some (.Binary (.Var "i") .Assign (.Binary (.Var "i") .Plus (.Value 1))))
          [.ExpressionStatement (.Binary (.Var "i") .Plus (.Value 10))]]⟩ =
      some 11 := by
  refine ⟨?_, fun fuel env update body => rfl, rfl, rfl⟩
  intro fuel env i update body
  simp only [evalStmt]
  cases evalExpr i env with
  | none => rfl
  | some p => rfl

/-- C8: the claim asserts that the lexer collapses identifiers to the keyword
tokens `if`, `while` AND `for`.  The code refutes the `for` case: the keyword
match in `Lexer::next_token` recognizes only "if" and "while", so lexing
"for" yields `Ident("for")` — even though `Parser::stmt` dispatches on a
`For` token kind, which this lexer can therefore never produce. -/
theorem C8_keyword_for_missing :
    lex "for".toList = some (.ok [tok (.Ident "for") 0 3])
    ∧ lex "if".toList = some (.ok [tok .If 0 2])
    ∧ lex "while".toList = some (.ok [tok .While 0 5])
    ∧ TokenKind.Ident "for" ≠ TokenKind.For :=
  ⟨rfl, rfl, rfl, by decide⟩

/-- C10: parsing an empty token sequence (for example the lexer output of an
empty or whitespace-only source) fails with `UnexpectedEof`, and every
successfully parsed `Program` has at least one top-level statement, at every
fuel value. -/
theorem C10_program_nonempty :
    parseProgram [] = .err .UnexpectedEof
    ∧ lex "".toList = some (.ok [])
    ∧ lex "   ".toList = some (.ok [])
    ∧ (∀ fuel toks prog rest, program fuel toks = .ok prog rest →
        prog.body ≠ []) := by
  refine ⟨rfl, rfl, rfl, ?_⟩
  intro fuel toks prog rest h
  match fuel with
  | 0 => simp [program] at h
  | fuel + 1 =>
    rw [program] at h
    split at h
    · split at h
      · cases h
        simp
      · cases h
      · cases h
    · cases h
    · cases h

/-- C10 witness: `C10_program_nonempty` applied to the parse of the token
sequence of "1;". -/
theorem C10_witness :
    (Program.mk [.ExpressionStatement (.Value 1)]).body ≠ [] :=
  C10_program_nonempty.2.2.2 20 [tok (.Num 1) 0 1, tok .Semicolon 1 2]
    ⟨[.ExpressionStatement (.Value 1)]⟩ [] rfl

/-!
Infrastructure for C9: the lexer never panics on inputs all of whose maximal
digit runs denote values in the `i32` range, and panics on an out-of-range
digit run.
-/

/-- Dropping a prefix never lengthens a list. -/
theorem length_dropWhile_le {α : Type} (p : α → Bool) (l : List α) :
    (l.dropWhile p).length ≤ l.length := by
  induction l with
  | nil => simp
  | cons c cs ih =>
    by_cases h : p c = true
    · rw [List.dropWhile_cons, if_pos h]
      exact ih.trans (Nat.le_succ _)
    · rw [List.dropWhile_cons, if_neg h]

/-- State-machine scan of the maximal digit runs of an input: `acc` is the
value of the digit run currently being read (`none` when the previous
character was not a digit); each finished run's value is checked against
`I32_MAX`, the bound under which `str::parse::<i32>` succeeds. -/
def runsOkFrom : Option Nat → List Char → Bool
  | acc, [] => acc.elim true (fun v => decide (v ≤ I32_MAX))
  | acc, c :: cs =>
    if c.isDigit then
      runsOkFrom (some (10 * acc.getD 0 + (c.toNat - 48))) cs
    else
      acc.elim true (fun v => decide (v ≤ I32_MAX)) && runsOkFrom none cs

/-- Every maximal digit run of the input denotes a value representable in
`i32` (at most `I32_MAX`); digit runs inside identifiers count as well, which
only strengthens the hypothesis of the totality theorem. -/
def runsOk (cs : List Char) : Bool := runsOkFrom none cs

/-- Scanning from inside a digit run with accumulated value `a` checks the
completed run (the accumulator extended by the following digits) and then
scans the remainder. -/
theorem runsOkFrom_some (cs : List Char) : ∀ a : Nat,
    runsOkFrom (some a) cs =
      (decide ((cs.takeWhile Char.isDigit).foldl
          (fun x c => 10 * x + (c.toNat - 48)) a ≤ I32_MAX)
        && runsOkFrom none (cs.dropWhile Char.isDigit)) := by
  induction cs with
  | nil => intro a; simp [runsOkFrom]
  | cons c cs ih =>
    intro a
    by_cases h : c.isDigit = true
    · rw [List.takeWhile_cons, if_pos h, List.dropWhile_cons, if_pos h]
      simp only [runsOkFrom, if_pos h, Option.getD_some, List.foldl_cons]
      exact ih _
    · rw [List.takeWhile_cons, if_neg h, List.dropWhile_cons, if_neg h]
      simp [runsOkFrom, h]

/-- Characterization of `runsOk` at a digit: the leading maximal digit run's
value is bounded and the input after the run is itself runs-bounded. -/
theorem runsOk_cons_digit {c : Char} (h : c.isDigit = true) (cs : List Char) :
    runsOk (c :: cs) =
      (decide (digitsVal (c :: cs.takeWhile Char.isDigit) ≤ I32_MAX)
        && runsOk (cs.dropWhile Char.isDigit)) := by
  show runsOkFrom none (c :: cs) = _
  simp only [runsOkFrom, if_pos h, Option.getD_none]
  rw [runsOkFrom_some]
  rfl

/-- `runsOk` ignores a leading non-digit character. -/
theorem runsOk_cons_of_not_digit {c : Char} (h : c.isDigit = false)
    (cs : List Char) : runsOk (c :: cs) = runsOk cs := by
  show runsOkFrom none (c :: cs) = runsOkFrom none cs
  simp [runsOkFrom, h]

/-- Whitespace characters are not digits. -/
theorem not_digit_of_whitespace {c : Char} (h : c.isWhitespace = true) :
    c.isDigit = false := by
  simp only [Char.isWhitespace, Bool.or_eq_true, decide_eq_true_eq] at h
  rcases h with ((rfl | rfl) | rfl) | rfl <;> decide

/-- Digits are alphanumeric. -/
theorem alnum_of_digit {c : Char} (h : c.isDigit = true) :
    c.isAlphanum = true := by
  simp [Char.isAlphanum, h]

/-- Skipping leading whitespace preserves the digit-run bound. -/
theorem runsOk_dropWhile_ws (cs : List Char) (h : runsOk cs = true) :
    runsOk (cs.dropWhile Char.isWhitespace) = true := by
  induction cs with
  | nil => simpa using h
  | cons c cs ih =>
    by_cases hc : c.isWhitespace = true
    · rw [List.dropWhile_cons, if_pos hc]
      rw [runsOk_cons_of_not_digit (not_digit_of_whitespace hc)] at h
      exact ih h
    · rw [List.dropWhile_cons, if_neg hc]
      exact h

/-- Consuming a maximal alphanumeric prefix (an identifier tail) preserves the
digit-run bound: the prefix removed never ends inside a digit run. -/
theorem runsOk_dropWhile_alnum (cs : List Char) (h : runsOk cs = true) :
    runsOk (cs.dropWhile Char.isAlphanum) = true := by
  have H : ∀ n cs, List.length cs ≤ n → runsOk cs = true →
      runsOk (cs.dropWhile Char.isAlphanum) = true := by
    intro n
    induction n with
    | zero =>
      intro cs hl h
      match cs with
      | [] => simpa using h
    | succ n ih =>
      intro cs hl h
      match cs with
      | [] => simpa using h
      | c :: cs =>
        by_cases hd : c.isDigit = true
        · rw [runsOk_cons_digit hd] at h
          rw [Bool.and_eq_true] at h
          obtain ⟨hv, hr⟩ := h
          have key : (c :: cs).dropWhile Char.isAlphanum =
              (cs.dropWhile Char.isDigit).dropWhile Char.isAlphanum := by
            rw [List.dropWhile_cons, if_pos (alnum_of_digit hd)]
            conv_lhs =>
              rw [← List.takeWhile_append_dropWhile (p := Char.isDigit) (l := cs)]
            rw [List.dropWhile_append]
            have hnil : (cs.takeWhile Char.isDigit).dropWhile Char.isAlphanum = [] := by
              rw [List.dropWhile_eq_nil_iff]
              intro x hx
              exact alnum_of_digit (List.mem_takeWhile_imp hx)
            simp [hnil]
          rw [key]
          refine ih _ ?_ hr
          have h1 := length_dropWhile_le Char.isDigit cs
          simp only [List.length_cons] at hl
          omega
        · have hd' : c.isDigit = false := by simpa using hd
          by_cases ha : c.isAlphanum = true
          · rw [List.dropWhile_cons, if_pos ha]
            rw [runsOk_cons_of_not_digit hd'] at h
            refine ih cs ?_ h
            simp only [List.length_cons] at hl
            omega
          · rw [List.dropWhile_cons, if_neg ha]
            exact h
  exact H cs.length cs le_rfl h

/-- One step of the lexer, after the first character of a token has been
read, neither panics nor breaks the digit-run bound, and consumes no
characters beyond the remaining input. -/
theorem nextTokenAt_spec (start : Nat) (c : Char) (rest : List Char)
    (h : runsOk (c :: rest) = true) :
    nextTokenAt start c rest ≠ .panic ∧
      ∀ t p r, nextTokenAt start c rest = .tok t p r →
        runsOk r = true ∧ r.length ≤ rest.length := by
  by_cases hd : c.isDigit = true
  · rw [runsOk_cons_digit hd, Bool.and_eq_true] at h
    obtain ⟨hv, hr⟩ := h
    have hval : digitsVal (c :: rest.takeWhile Char.isDigit) ≤ I32_MAX :=
      of_decide_eq_true hv
    have hne : ∀ d : Char, d.isDigit = false → ¬ (c = d) := by
      intro d hdd hEq
      subst hEq
      rw [hd] at hdd
      cases hdd
    simp only [nextTokenAt]
    rw [if_neg (hne '+' (by decide)), if_neg (hne '-' (by decide)),
      if_neg (hne '*' (by decide)), if_neg (hne '/' (by decide)),
      if_neg (hne '^' (by decide)), if_neg (hne '(' (by decide)),
      if_neg (hne ')' (by decide)), if_neg (hne ';' (by decide)),
      if_neg (hne '=' (by decide)), if_neg (hne '\x7b' (by decide)),
      if_neg (hne '\x7d' (by decide)), if_neg (hne '<' (by decide)),
      if_neg (hne '>' (by decide)), if_pos hd, if_pos hval]
    exact ⟨by simp, fun t p r he => by
      cases he
      exact ⟨hr, length_dropWhile_le _ _⟩⟩
  · have hd' : c.isDigit = false := by simpa using hd
    have hrest : runsOk rest = true := by
      rw [runsOk_cons_of_not_digit hd'] at h
      exact h
    by_cases hc1 : c = '+'
    · subst hc1
      exact ⟨fun hx => (by cases hx), fun t p r he => (by cases he; exact ⟨hrest, le_rfl⟩)⟩
    by_cases hc2 : c = '-'
    · subst hc2
      exact ⟨fun hx => (by cases hx), fun t p r he => (by cases he; exact ⟨hrest, le_rfl⟩)⟩
    by_cases hc3 : c = '*'
    · subst hc3
      exact ⟨fun hx => (by cases hx), fun t p r he => (by cases he; exact ⟨hrest, le_rfl⟩)⟩
    by_cases hc4 : c = '/'
    · subst hc4
      exact ⟨fun hx => (by cases hx), fun t p r he => (by cases he; exact ⟨hrest, le_rfl⟩)⟩
    by_cases hc5 : c = '^'
    · subst hc5
      exact ⟨fun hx => (by cases hx), fun t p r he => (by cases he; exact ⟨hrest, le_rfl⟩)⟩
    by_cases hc6 : c = '('
    · subst hc6
      exact ⟨fun hx => (by cases hx), fun t p r he => (by cases he; exact ⟨hrest, le_rfl⟩)⟩
    by_cases hc7 : c = ')'
    · subst hc7
      exact ⟨fun hx => (by cases hx), fun t p r he => (by cases he; exact ⟨hrest, le_rfl⟩)⟩
    by_cases hc8 : c = ';'
    · subst hc8
      exact ⟨fun hx => (by cases hx), fun t p r he => (by cases he; exact ⟨hrest, le_rfl⟩)⟩
    by_cases hc9 : c = '='
    · subst hc9
      exact ⟨fun hx => (by cases hx), fun t p r he => (by cases he; exact ⟨hrest, le_rfl⟩)⟩
    by_cases hc10 : c = '\x7b'
    · subst hc10
      exact ⟨fun hx => (by cases hx), fun t p r he => (by cases he; exact ⟨hrest, le_rfl⟩)⟩
    by_cases hc11 : c = '\x7d'
    · subst hc11
      exact ⟨fun hx => (by cases hx), fun t p r he => (by cases he; exact ⟨hrest, le_rfl⟩)⟩
    by_cases hc12 : c = '<'
    · subst hc12
      rcases rest with _ | ⟨r1, rest1⟩
      · exact ⟨fun hx => (by cases hx), fun t p r he => (by cases he; exact ⟨hrest, le_rfl⟩)⟩
      · rw [nextTokenAt_lt]
        by_cases h1 : r1 = '='
        · subst h1
          rw [if_pos rfl]
          rw [runsOk_cons_of_not_digit (by decide)] at hrest
          exact ⟨by simp, fun t p r he => by cases he; exact ⟨hrest, Nat.le_succ _⟩⟩
        · rw [if_neg h1]
          exact ⟨by simp, fun t p r he => by cases he; exact ⟨hrest, le_rfl⟩⟩
    by_cases hc13 : c = '>'
    · subst hc13
      rcases rest with _ | ⟨r1, rest1⟩
      · exact ⟨fun hx => (by cases hx), fun t p r he => (by cases he; exact ⟨hrest, le_rfl⟩)⟩
      · rw [nextTokenAt_gt]
        by_cases h1 : r1 = '='
        · subst h1
          rw [if_pos rfl]
          rw [runsOk_cons_of_not_digit (by decide)] at hrest
          exact ⟨by simp, fun t p r he => by cases he; exact ⟨hrest, Nat.le_succ _⟩⟩
        · rw [if_neg h1]
          exact ⟨by simp, fun t p r he => by cases he; exact ⟨hrest, le_rfl⟩⟩
    simp only [nextTokenAt]
    rw [if_neg hc1, if_neg hc2, if_neg hc3, if_neg hc4, if_neg hc5, if_neg hc6,
      if_neg hc7, if_neg hc8, if_neg hc9, if_neg hc10, if_neg hc11,
      if_neg hc12, if_neg hc13, if_neg (by simp [hd'] : ¬ (c.isDigit = true))]
    by_cases ha : c.isAlpha = true
    · rw [if_pos ha]
      exact ⟨by simp, fun t p r he => by
        cases he
        exact ⟨runsOk_dropWhile_alnum rest hrest, length_dropWhile_le _ _⟩⟩
    · rw [if_neg ha]
      exact ⟨by simp, fun t p r he => nomatch he⟩

/-- `Lexer::next_token` neither panics nor breaks the digit-run bound on a
runs-bounded input, and on success strictly consumes input. -/
theorem nextToken_spec (pos : Nat) (cs : List Char) (h : runsOk cs = true) :
    nextToken pos cs ≠ .panic ∧
      ∀ t p r, nextToken pos cs = .tok t p r →
        runsOk r = true ∧ r.length < cs.length := by
  have hws : runsOk (cs.dropWhile Char.isWhitespace) = true :=
    runsOk_dropWhile_ws cs h
  have hlen : (cs.dropWhile Char.isWhitespace).length ≤ cs.length :=
    length_dropWhile_le _ _
  simp only [nextToken]
  split
  · exact ⟨fun hx => (by cases hx), fun t p r he => nomatch he⟩
  · rename_i c rest heq
    rw [heq] at hws hlen
    obtain ⟨hp, htok⟩ := nextTokenAt_spec _ c rest hws
    refine ⟨hp, fun t p r he => ?_⟩
    obtain ⟨h1, h2⟩ := htok t p r he
    refine ⟨h1, ?_⟩
    simp only [List.length_cons] at hlen
    omega

/-- With fuel exceeding the input length, the lexer loop returns a value (a
token list or a lexical error) on every runs-bounded input. -/
theorem lexLoop_isSome (fuel : Nat) :
    ∀ pos cs, cs.length < fuel → runsOk cs = true →
      (lexLoop fuel pos cs).isSome = true := by
  induction fuel with
  | zero => intro pos cs hl; omega
  | succ fuel ih =>
    intro pos cs hl h
    simp only [lexLoop]
    obtain ⟨hp, htok⟩ := nextToken_spec pos cs h
    match hnt : nextToken pos cs with
    | .eof => simp
    | .invalid e => simp
    | .panic => exact absurd hnt hp
    | .tok t p r =>
      obtain ⟨h1, h2⟩ := htok t p r hnt
      have hs := ih p r (by omega) h1
      show (match lexLoop fuel p r with
        | some (Except.ok ts) => some (Except.ok (t :: ts))
        | some (Except.error e) => some (Except.error e)
        | none => (none : Option (Except LexicalError (List Token)))).isSome = true
      match hloop : lexLoop fuel p r with
      | some (.ok ts) => rfl
      | some (.error e) => rfl
      | none => rw [hloop] at hs; cases hs

/-- C9: lexing is not total.  On every input all of whose maximal digit runs
denote values of at most `i32::MAX`, `Lexer::lex` returns a value — a token
list or an `InvalidToken` error — without panicking; but on the input
"2147483648" (one more than `i32::MAX`), the `parse::<i32>().unwrap()` in
`next_number` panics instead of returning a `LexicalError`. -/
theorem C9_lex_partiality :
    (∀ cs, runsOk cs = true → (lex cs).isSome = true)
    ∧ nextToken 0 "2147483648".toList = .panic
    ∧ lex "2147483648".toList = none := by
  refine ⟨fun cs h => lexLoop_isSome (cs.length + 1) 0 cs (Nat.lt_succ_self _) h,
    rfl, rfl⟩

/-- C9 witness: the totality half of `C9_lex_partiality` applied to the
runs-bounded input "2147483647+9", together with its panic half. -/
theorem C9_witness :
    runsOk "2147483647+9".toList = true
    ∧ (lex "2147483647+9".toList).isSome = true
    ∧ lex "2147483648".toList = none :=
  ⟨rfl, C9_lex_partiality.1 "2147483647+9".toList rfl, C9_lex_partiality.2.2⟩

end ExprLang
